import Mathlib

/-!
Verification development for the Flow payment-API client
(`src/services/flow/client.ts` and its type declarations).

The embedding models:
* JS records `Record<string, string | number>` as association lists with
  JS-object semantics (unique keys, insertion order, spread/assignment
  overriding in place, appending otherwise);
* `CryptoJS.HmacSHA256(message, secret).toString(Hex)` as an executable
  HMAC-SHA256 over UTF-8 bytes, with 32-bit words as `Nat` reduced mod 2^32;
* the two sorts in the source: the signing sort `Object.keys(params).sort()`
  (lexicographic comparison of the character sequences; JS compares UTF-16
  code units, which agrees with this on the Basic Multilingual Plane, where
  every name this client uses lives) and the wire sort
  `.sort((a, b) => a.localeCompare(b))` (modelled after the CLDR root
  collation on the ASCII identifiers the client uses: primary weights
  case-folded with punctuation before digits before letters, ties broken by
  case with lowercase first);
* the response normalization of `makeRequest` as a function from a transport
  outcome to `Except FlowApiError JsonBody`, with JS truthiness of the
  `||` fallbacks and of `data.code` made explicit.

JS numbers are IEEE doubles; the client only ever renders integral amounts,
which is the regime modelled here (`Int`, decimal rendering).
-/

namespace FlowSpec

/-- A JS scalar value appearing in a request record: `string | number`. -/
inductive Value where
  | str (v : String)
  | num (v : Int)
deriving DecidableEq, Repr

/-- `String(value)` / template interpolation of a scalar: strings unchanged,
numbers in decimal (sign only when negative). -/
def Value.render : Value → String
  | .str v => v
  | .num v => toString v

/-- A JS record `Record<string, string | number>`: keys unique (an invariant
carried as a hypothesis where needed), insertion ordered. -/
abbrev Params := List (String × Value)

/-- The key list (`Object.keys`) in insertion order. -/
def keysOf (p : Params) : List String := p.map Prod.fst

/-- Property access `params[key]`: the value, or `none` for `undefined`. -/
def jsLookup : Params → String → Option Value
  | [], _ => none
  | kv :: rest, k => if kv.1 = k then some kv.2 else jsLookup rest k

/-- Assigning `key: value` into a record: overrides in place when the key is
present, appends otherwise. -/
def recInsert (p : Params) (kv : String × Value) : Params :=
  if kv.1 ∈ keysOf p then p.map (fun q => if q.1 = kv.1 then kv else q)
  else p ++ [kv]

/-- Object spread `\x7b ...base, ...l \x7d`: each entry of `l` assigned into
`base` left to right. -/
def spreadInto (base : Params) (l : Params) : Params := l.foldl recInsert base

/-- Connection configuration (`FlowConfig` in `types.ts`). -/
structure FlowConfig where
  apiKey : String
  secretKey : String
  baseUrl : String

/-! ### HMAC-SHA256 (model of `CryptoJS.HmacSHA256(msg, key).toString(Hex)`)

Bytes and 32-bit words are `Nat`; word arithmetic is reduced mod `2 ^ 32`.
-/

/-- Truncation to a 32-bit word. -/
def w32 (x : Nat) : Nat := x % 4294967296

/-- Rotate a 32-bit word right by `n`. -/
def rotr (n x : Nat) : Nat := w32 ((x >>> n) ||| (x <<< (32 - n)))

/-- SHA-256 big sigma 0. -/
def bSig0 (x : Nat) : Nat := rotr 2 x ^^^ rotr 13 x ^^^ rotr 22 x

/-- SHA-256 big sigma 1. -/
def bSig1 (x : Nat) : Nat := rotr 6 x ^^^ rotr 11 x ^^^ rotr 25 x

/-- SHA-256 small sigma 0. -/
def sSig0 (x : Nat) : Nat := rotr 7 x ^^^ rotr 18 x ^^^ (x >>> 3)

/-- SHA-256 small sigma 1. -/
def sSig1 (x : Nat) : Nat := rotr 17 x ^^^ rotr 19 x ^^^ (x >>> 10)

/-- SHA-256 choice function (`¬x` taken within 32 bits). -/
def chF (x y z : Nat) : Nat := (x &&& y) ^^^ ((x ^^^ 4294967295) &&& z)

/-- SHA-256 majority function. -/
def majF (x y z : Nat) : Nat := (x &&& y) ^^^ (x &&& z) ^^^ (y &&& z)

/-- The 64 SHA-256 round constants. -/
def sha256K : List Nat :=
  [1116352408, 1899447441, 3049323471, 3921009573, 961987163,
   1508970993, 2453635748, 2870763221, 3624381080, 310598401,
   607225278, 1426881987, 1925078388, 2162078206, 2614888103,
   3248222580, 3835390401, 4022224774, 264347078, 604807628,
   770255983, 1249150122, 1555081692, 1996064986, 2554220882,
   2821834349, 2952996808, 3210313671, 3336571891, 3584528711,
   113926993, 338241895, 666307205, 773529912, 1294757372,
   1396182291, 1695183700, 1986661051, 2177026350, 2456956037,
   2730485921, 2820302411, 3259730800, 3345764771, 3516065817,
   3600352804, 4094571909, 275423344, 430227734, 506948616,
   659060556, 883997877, 958139571, 1322822218, 1537002063,
   1747873779, 1955562222, 2024104815, 2227730452, 2361852424,
   2428436474, 2756734187, 3204031479, 3329325298]

/-- The SHA-256 initial hash value. -/
def sha256H0 : List Nat :=
  [1779033703, 3144134277, 1013904242, 2773480762,
   1359893119, 2600822924, 528734635, 1541459225]

/-- Extend the 16-word block to the 64-word message schedule: push `n` more
words, each computed from the last 16 already present. -/
def extendW : Nat → Array Nat → Array Nat
  | 0, w => w
  | n + 1, w =>
    let i := w.size
    let x := w32 (sSig1 (w.getD (i - 2) 0) + w.getD (i - 7) 0 +
                  sSig0 (w.getD (i - 15) 0) + w.getD (i - 16) 0)
    extendW n (w.push x)

/-- Working state of the compression loop: `(a, b, c, d, e, f, g, h)`. -/
abbrev Sha256State := Nat × Nat × Nat × Nat × Nat × Nat × Nat × Nat

/-- One SHA-256 compression round, consuming a `(constant, scheduleWord)` pair. -/
def roundStep (s : Sha256State) (kw : Nat × Nat) : Sha256State :=
  let (a, b, c, d, e, f, g, h) := s
  let t1 := w32 (h + bSig1 e + chF e f g + kw.1 + kw.2)
  let t2 := w32 (bSig0 a + majF a b c)
  (w32 (t1 + t2), a, b, c, w32 (d + t1), e, f, g)

/-- Compress one 16-word block into the running hash value. -/
def compressBlock (hs : List Nat) (block : List Nat) : List Nat :=
  let w := extendW 48 block.toArray
  let fin := (sha256K.zip w.toList).foldl roundStep
    (hs.getD 0 0, hs.getD 1 0, hs.getD 2 0, hs.getD 3 0,
     hs.getD 4 0, hs.getD 5 0, hs.getD 6 0, hs.getD 7 0)
  [w32 (hs.getD 0 0 + fin.1), w32 (hs.getD 1 0 + fin.2.1),
   w32 (hs.getD 2 0 + fin.2.2.1), w32 (hs.getD 3 0 + fin.2.2.2.1),
   w32 (hs.getD 4 0 + fin.2.2.2.2.1), w32 (hs.getD 5 0 + fin.2.2.2.2.2.1),
   w32 (hs.getD 6 0 + fin.2.2.2.2.2.2.1), w32 (hs.getD 7 0 + fin.2.2.2.2.2.2.2)]

/-- The 8-byte big-endian length field of the padding (length in bits). -/
def lenBytes (n : Nat) : List Nat := [56, 48, 40, 32, 24, 16, 8, 0].map (fun k => (n >>> k) % 256)

/-- SHA-256 padding: `0x80`, zeros to 56 mod 64, then the bit length. -/
def padMsg (m : List Nat) : List Nat :=
  m ++ 0x80 :: List.replicate ((120 - (m.length + 1) % 64) % 64) 0 ++ lenBytes (8 * m.length)

/-- Group bytes into big-endian 32-bit words. -/
def bytesToWords : List Nat → List Nat
  | b0 :: b1 :: b2 :: b3 :: rest =>
    (b0 * 16777216 + b1 * 65536 + b2 * 256 + b3) :: bytesToWords rest
  | _ => []

/-- Split a padded byte string into 16-word blocks (`fuel` bounds recursion by
the byte length). -/
def toBlocks : Nat → List Nat → List (List Nat)
  | 0, _ => []
  | _ + 1, [] => []
  | n + 1, l => bytesToWords (l.take 64) :: toBlocks n (l.drop 64)

/-- Big-endian bytes of a 32-bit word. -/
def wordBytes (w : Nat) : List Nat := [w / 16777216 % 256, w / 65536 % 256, w / 256 % 256, w % 256]

/-- SHA-256 of a byte string, as 32 bytes. -/
def sha256 (m : List Nat) : List Nat :=
  let padded := padMsg m
  ((toBlocks padded.length padded).foldl compressBlock sha256H0).flatMap wordBytes

/-- HMAC-SHA256 (RFC 2104) of a message under a key, as 32 bytes. -/
def hmacSha256 (key msg : List Nat) : List Nat :=
  let k0 := if key.length > 64 then sha256 key else key
  let kp := k0 ++ List.replicate (64 - k0.length) 0
  sha256 ((kp.map (fun b => b ^^^ 0x5c)) ++ sha256 ((kp.map (fun b => b ^^^ 0x36)) ++ msg))

/-- UTF-8 encoding of one character. -/
def utf8Bytes (c : Char) : List Nat :=
  let n := c.toNat
  if n < 0x80 then [n]
  else if n < 0x800 then [0xc0 + n / 0x40, 0x80 + n % 0x40]
  else if n < 0x10000 then [0xe0 + n / 0x1000, 0x80 + n / 0x40 % 0x40, 0x80 + n % 0x40]
  else [0xf0 + n / 0x40000, 0x80 + n / 0x1000 % 0x40, 0x80 + n / 0x40 % 0x40, 0x80 + n % 0x40]

/-- UTF-8 bytes of a string (CryptoJS parses string inputs as UTF-8). -/
def strBytes (s : String) : List Nat := s.data.flatMap utf8Bytes

/-- Lowercase hex digit for a value below 16. -/
def hexChar (n : Nat) : Char := "0123456789abcdef".data.getD n '0'

/-- Lowercase hexadecimal rendering of a byte string. -/
def bytesToHex (bs : List Nat) : String :=
  String.mk (bs.flatMap (fun b => [hexChar (b / 16), hexChar (b % 16)]))

/-- `CryptoJS.HmacSHA256(msg, key).toString(CryptoJS.enc.Hex)`. -/
def hmacSHA256Hex (key msg : String) : String := bytesToHex (hmacSha256 (strBytes key) (strBytes msg))

/-! ### The signer (`FlowClient.sign`) -/

/-- Lexicographic comparison of weight lists (a proper prefix sorts first). -/
def lexLeNat : List Nat → List Nat → Bool
  | [], _ => true
  | _ :: _, [] => false
  | a :: as, b :: bs => if a < b then true else if b < a then false else lexLeNat as bs

/-- The codepoint sequence of a string. -/
def strCodes (s : String) : List Nat := s.data.map Char.toNat

/-- The comparison used by the default `Array.prototype.sort()` on the key
names: lexicographic on the character sequence. (JS compares UTF-16 code
units; on the Basic Multilingual Plane, where every name this client uses
lives, that coincides with this codepoint comparison.) -/
def strLeb (a b : String) : Bool := lexLeNat (strCodes a) (strCodes b)

/-- `Object.keys(params).sort()`: the key names in ascending lexicographic
order of their character sequences. -/
def sortedKeys (params : Params) : List String :=
  List.insertionSort (fun a b : String => strLeb a b = true) (keysOf params)

/-- The value interpolated for `params[key]` (a missing key would read back
as the string `undefined`, as in JS). -/
def renderLookup (params : Params) (k : String) : String :=
  match jsLookup params k with
  | some v => v.render
  | none => "undefined"

/-- The string to sign: each key immediately followed by its value, in sorted
key order, no delimiters (`sortedKeys.map(key => key + params[key]).join("")`). -/
def stringToSign (params : Params) : String :=
  String.join ((sortedKeys params).map (fun k => k ++ renderLookup params k))

/-- `FlowClient.sign`: HMAC-SHA256 of the canonicalized string under the
secret key, as lowercase hex. -/
def sign (secretKey : String) (params : Params) : String :=
  hmacSHA256Hex secretKey (stringToSign params)

/-! ### The wire sort (`a.localeCompare(b)`)

The wire serialization sorts entries with `String.prototype.localeCompare`,
a locale-aware collation. On the ASCII identifiers this client uses it is
modelled after the CLDR root collation: primary weights compare case-folded
characters with punctuation before digits before letters; a full primary
comparison wins before case is consulted; ties are broken by case with
lowercase before uppercase. -/

/-- Primary collation weight of an ASCII character (case-folded letters;
punctuation below digits below letters; never 0, which is the level
separator). -/
def primW (c : Char) : Nat :=
  let n := c.toNat
  if 97 ≤ n ∧ n ≤ 122 then 1000 + (n - 97)
  else if 65 ≤ n ∧ n ≤ 90 then 1000 + (n - 65)
  else if 48 ≤ n ∧ n ≤ 57 then 500 + (n - 48)
  else if n = 95 then 10
  else 100 + n % 300

/-- Tertiary (case) weight: lowercase and everything else 1, uppercase 2. -/
def tertW (c : Char) : Nat :=
  if 65 ≤ c.toNat ∧ c.toNat ≤ 90 then 2 else 1

/-- The collation sort key of a string: primary weights, a level separator,
then the case weights. -/
def localeKey (s : String) : List Nat := s.data.map primW ++ 0 :: s.data.map tertW

/-- The modelled `a.localeCompare(b) <= 0`. -/
def localeLeb (a b : String) : Bool := lexLeNat (localeKey a) (localeKey b)

/-! ### Dispatch (`FlowClient.makeRequest`): request side -/

/-- `\x7b apiKey: this.config.apiKey, ...params \x7d`. -/
def paramsWithApiKey (cfg : FlowConfig) (params : Params) : Params :=
  spreadInto [("apiKey", Value.str cfg.apiKey)] params

/-- `\x7b ...paramsWithApiKey, s: signature \x7d`, with the signature computed
over the API-key-merged set. -/
def signedParams (cfg : FlowConfig) (params : Params) : Params :=
  recInsert (paramsWithApiKey cfg params)
    ("s", Value.str (sign cfg.secretKey (paramsWithApiKey cfg params)))

/-- `Object.entries(signedParams).sort((a, b) => a.localeCompare(b))`,
then each value stringified — the entry sequence serialized on the wire.
The GET and POST branches of the source perform this identically. -/
def wireEntries (cfg : FlowConfig) (params : Params) : List (String × String) :=
  (List.insertionSort (fun p q : String × Value => localeLeb p.1 q.1 = true)
      (signedParams cfg params)).map (fun p => (p.1, p.2.render))

/-- The transmitted parameter names, in wire order. -/
def wireNames (cfg : FlowConfig) (params : Params) : List String :=
  (wireEntries cfg params).map Prod.fst

/-- The name sequence of the string-to-sign: the sorted keys of the
API-key-merged set. -/
def signNameSeq (cfg : FlowConfig) (params : Params) : List String :=
  sortedKeys (paramsWithApiKey cfg params)

/-! ### Operation methods -/

/-- `CustomerCreateRequest` from `types.ts`. -/
structure CustomerCreateRequest where
  name : String
  email : String
  externalId : String

/-- The parameter set assembled by `FlowClient.createCustomer`. -/
def createParams (r : CustomerCreateRequest) : Params :=
  [("name", Value.str r.name), ("email", Value.str r.email),
   ("externalId", Value.str r.externalId)]

/-- `CustomerRegisterRequest` from `types.ts`. -/
structure CustomerRegisterRequest where
  customerId : String
  url_return : String

/-- The parameter set assembled by `FlowClient.registerCustomer`. -/
def registerParams (r : CustomerRegisterRequest) : Params :=
  [("customerId", Value.str r.customerId), ("url_return", Value.str r.url_return)]

/-- `CustomerRegisterStatusRequest` from `types.ts`. -/
structure CustomerRegisterStatusRequest where
  token : String

/-- The parameter set assembled by `FlowClient.getRegisterStatus`. -/
def statusParams (r : CustomerRegisterStatusRequest) : Params :=
  [("token", Value.str r.token)]

/-- `CustomerChargeRequest` from `types.ts`; the four trailing fields are the
optional ones, `none` when absent. `amount` is a JS number (integral regime
modelled). -/
structure CustomerChargeRequest where
  customerId : String
  amount : Int
  currency : String
  subject : String
  commerceOrder : Option String
  email : Option String
  urlConfirmation : Option String
  urlReturn : Option String

/-- `if (request.field) params.field = request.field`: the JS truthiness test
skips an absent field and also an empty-string one. -/
def addIfTruthy (p : Params) (k : String) (o : Option String) : Params :=
  match o with
  | some v => if v = "" then p else p ++ [(k, Value.str v)]
  | none => p

/-- The parameter set assembled by `FlowClient.chargeCustomer`. -/
def chargeParams (r : CustomerChargeRequest) : Params :=
  addIfTruthy (addIfTruthy (addIfTruthy (addIfTruthy
    [("customerId", Value.str r.customerId), ("amount", Value.num r.amount),
     ("currency", Value.str r.currency), ("subject", Value.str r.subject)]
    "commerceOrder" r.commerceOrder) "email" r.email)
    "urlConfirmation" r.urlConfirmation) "urlReturn" r.urlReturn

/-- `CustomerChargeRequest` with the `commerceOrder` field replaced. -/
def setCommerceOrder (r : CustomerChargeRequest) (o : Option String) : CustomerChargeRequest :=
  ⟨r.customerId, r.amount, r.currency, r.subject, o, r.email, r.urlConfirmation, r.urlReturn⟩

/-- `CustomerChargeRequest` with the `email` field replaced. -/
def setEmail (r : CustomerChargeRequest) (o : Option String) : CustomerChargeRequest :=
  ⟨r.customerId, r.amount, r.currency, r.subject, r.commerceOrder, o, r.urlConfirmation, r.urlReturn⟩

/-- `CustomerChargeRequest` with the `urlConfirmation` field replaced. -/
def setUrlConfirmation (r : CustomerChargeRequest) (o : Option String) : CustomerChargeRequest :=
  ⟨r.customerId, r.amount, r.currency, r.subject, r.commerceOrder, r.email, o, r.urlReturn⟩

/-- `CustomerChargeRequest` with the `urlReturn` field replaced. -/
def setUrlReturn (r : CustomerChargeRequest) (o : Option String) : CustomerChargeRequest :=
  ⟨r.customerId, r.amount, r.currency, r.subject, r.commerceOrder, r.email, r.urlConfirmation, o⟩

/-! ### Dispatch (`FlowClient.makeRequest`): response normalization -/

/-- `FlowApiError` from `types.ts`: the normalized failure shape,
`(message, code)`. -/
structure FlowApiError where
  message : String
  code : Int
deriving DecidableEq, Repr

/-- A parsed JSON response body, as far as the dispatch inspects it: the
optional `code` and `message` fields, plus the remaining payload fields. -/
structure JsonBody where
  code : Option Int
  message : Option String
  fields : List (String × String)
deriving DecidableEq, Repr

/-- A value thrown inside the `try` block: a `FlowApiError`, some other
`Error` (network failure, JSON syntax error), or a non-`Error` value. -/
inductive JsError where
  | flowApi (e : FlowApiError)
  | plain (msg : String)
  | nonErrorValue
deriving DecidableEq, Repr

/-- What the transport did: `fetch` rejected, or produced a response with a
status and a body that parses as JSON or does not. -/
inductive FetchOutcome where
  | throws (e : JsError)
  | response (status : Nat) (body : Option JsonBody)
deriving DecidableEq, Repr

/-- JS `x || d` on an optional string field (absent and `""` are falsy). -/
def jsOrStr (o : Option String) (d : String) : String :=
  match o with
  | some s => if s = "" then d else s
  | none => d

/-- JS `x || d` on an optional numeric field (absent and `0` are falsy). -/
def jsOrInt (o : Option Int) (d : Int) : Int :=
  match o with
  | some n => if n = 0 then d else n
  | none => d

/-- `Response.ok`: status in the 2xx range. -/
def responseOk (status : Nat) : Prop := 200 ≤ status ∧ status ≤ 299

instance (status : Nat) : Decidable (responseOk status) := by
  unfold responseOk; infer_instance

/-- The body of the `try` block of `makeRequest`, after the response arrives:
non-2xx statuses raise a `FlowApiError` from the error body (with the
`||` fallbacks of the source), a 2xx body with truthy nonzero `code` raises a
`FlowApiError`, an unparseable 2xx body raises the JSON parse error, and
anything else is returned as the success payload. -/
def innerRequest : FetchOutcome → Except JsError JsonBody
  | .throws e => .error e
  | .response status body =>
    if responseOk status then
      match body with
      | none => .error (.plain "Unexpected end of JSON input")
      | some data =>
        match data.code with
        | some c => if c ≠ 0 then .error (.flowApi ⟨jsOrStr data.message "API error", c⟩) else .ok data
        | none => .ok data
    else
      match body with
      | none => .error (.flowApi ⟨"Unknown error", status⟩)
      | some errorData =>
        .error (.flowApi ⟨jsOrStr errorData.message ("HTTP error " ++ toString status),
                          jsOrInt errorData.code status⟩)

/-- The `catch` block: a `FlowApiError` is rethrown unchanged, any other
`Error` is wrapped with code 500, a non-`Error` value becomes the generic
500 failure. -/
def normalizeError : JsError → FlowApiError
  | .flowApi e => e
  | .plain msg => ⟨msg, 500⟩
  | .nonErrorValue => ⟨"Unknown error occurred", 500⟩

/-- `FlowClient.makeRequest`, response side: the typed result produced for a
given transport outcome. -/
def makeRequest (outcome : FetchOutcome) : Except FlowApiError JsonBody :=
  match innerRequest outcome with
  | .ok data => .ok data
  | .error e => .error (normalizeError e)

/-! ### Per-operation parameter-name pools (used to relate the two sorts) -/

/-- The names `createCustomer` can place in its parameter set. -/
def createOpNames : List String := ["name", "email", "externalId"]

/-- The names `registerCustomer` can place in its parameter set. -/
def registerOpNames : List String := ["customerId", "url_return"]

/-- The names `getRegisterStatus` can place in its parameter set. -/
def statusOpNames : List String := ["token"]

/-- The names `chargeCustomer` can place in its parameter set. -/
def chargeOpNames : List String :=
  ["customerId", "amount", "currency", "subject",
   "commerceOrder", "email", "urlConfirmation", "urlReturn"]

/-- The signing comparator and the modelled locale comparator agree on all
pairs from a name pool. -/
def agreeOn (P : List String) : Prop :=
  ∀ a ∈ P, ∀ b ∈ P, (strLeb a b = true ↔ localeLeb a b = true)

instance (P : List String) : Decidable (agreeOn P) := by
  unfold agreeOn; infer_instance

/-! ### General lemmas about the record and sort operations -/

/-- Keys distribute over record concatenation. -/
theorem keysOf_append (p q : Params) : keysOf (p ++ q) = keysOf p ++ keysOf q :=
  List.map_append _ _ _

/-- Assigning a fresh key appends the entry. -/
theorem recInsert_of_not_mem (p : Params) (kv : String × Value) (h : kv.1 ∉ keysOf p) :
    recInsert p kv = p ++ [kv] := by
  simp [recInsert, h]

/-- Spreading a record whose keys are fresh for the base and mutually
distinct appends its entries. -/
theorem spreadInto_eq_append :
    ∀ (l base : Params), (∀ k ∈ keysOf l, k ∉ keysOf base) → (keysOf l).Nodup →
      spreadInto base l = base ++ l := by
  intro l
  induction l with
  | nil => intro base _ _; simp [spreadInto]
  | cons kv rest ih =>
    intro base hdisj hnd
    simp only [keysOf, List.map_cons, List.nodup_cons] at hnd
    have hd2 : ∀ k ∈ keysOf rest, k ∉ keysOf base := fun k hk =>
      hdisj k (by simp only [keysOf, List.map_cons, List.mem_cons]; exact Or.inr hk)
    have h1 : recInsert base kv = base ++ [kv] :=
      recInsert_of_not_mem base kv (hdisj kv.1 (by simp [keysOf]))
    have h2 : ∀ k ∈ keysOf rest, k ∉ keysOf (base ++ [kv]) := by
      intro k hk
      rw [keysOf_append]
      intro hmem
      rcases List.mem_append.mp hmem with hb | hkv
      · exact hd2 k hk hb
      · simp only [keysOf, List.map_cons, List.map_nil, List.mem_singleton] at hkv
        exact hnd.1 (hkv ▸ hk)
    have := ih (base ++ [kv]) h2 hnd.2
    simp only [spreadInto, List.foldl_cons] at *
    rw [h1, this, List.append_assoc]
    rfl

/-- Looking a key up in a record with distinct keys is invariant under
permutation of the entries. -/
theorem jsLookup_perm {p1 p2 : Params} (h : List.Perm p1 p2) :
    (keysOf p1).Nodup → ∀ k, jsLookup p1 k = jsLookup p2 k := by
  induction h with
  | nil => intro _ _; rfl
  | cons x _ ih =>
    intro hnd k
    simp only [keysOf, List.map_cons, List.nodup_cons] at hnd
    simp only [jsLookup]
    split
    · rfl
    · exact ih hnd.2 k
  | swap x y l =>
    intro hnd k
    simp only [keysOf, List.map_cons, List.nodup_cons, List.mem_cons] at hnd
    have hxy : y.1 ≠ x.1 := fun hcontra => hnd.1 (Or.inl hcontra)
    simp only [jsLookup]
    by_cases h1 : y.1 = k
    · by_cases h2 : x.1 = k
      · exact absurd (h2.trans h1.symm) (fun hc => hxy hc.symm)
      · simp [h1, h2]
    · by_cases h2 : x.1 = k
      · simp [h1, h2]
      · simp [h1, h2]
  | trans h1 _ ih1 ih2 =>
    intro hnd k
    have hnd2 : (keysOf _).Nodup := (h1.map Prod.fst).nodup hnd
    rw [ih1 hnd k, ih2 hnd2 k]

/-- Lexicographic weight comparison is total. -/
theorem lexLeNat_total : ∀ x y : List Nat, lexLeNat x y = true ∨ lexLeNat y x = true := by
  intro x
  induction x with
  | nil => intro y; exact Or.inl rfl
  | cons a as ih =>
    intro y
    match y with
    | [] => exact Or.inr rfl
    | b :: bs =>
      simp only [lexLeNat]
      by_cases hab : a < b
      · left; simp [hab]
      · by_cases hba : b < a
        · right; simp [hba]
        · have : a = b := by omega
          subst this
          simp only [Nat.lt_irrefl, if_false]
          exact ih bs

/-- Lexicographic weight comparison is transitive. -/
theorem lexLeNat_trans : ∀ x y z : List Nat,
    lexLeNat x y = true → lexLeNat y z = true → lexLeNat x z = true := by
  intro x
  induction x with
  | nil => intro y z _ _; rfl
  | cons a as ih =>
    intro y z hxy hyz
    match y, z with
    | [], _ => simp [lexLeNat] at hxy
    | _ :: _, [] => simp [lexLeNat] at hyz
    | b :: bs, c :: cs =>
      simp only [lexLeNat] at hxy hyz ⊢
      by_cases hab : a < b
      · by_cases hbc : b < c
        · simp [Nat.lt_trans hab hbc]
        · by_cases hcb : c < b
          · simp [hbc, hcb] at hyz
          · have : b = c := by omega
            subst this
            simp [hab]
      · by_cases hba : b < a
        · simp [hab, hba] at hxy
        · have : a = b := by omega
          subst this
          simp only [Nat.lt_irrefl, if_false] at hxy
          by_cases hac : a < c
          · simp [hac]
          · by_cases hca : c < a
            · simp [hac, hca] at hyz
            · have : a = c := by omega
              subst this
              simp only [Nat.lt_irrefl, if_false] at hyz ⊢
              exact ih bs cs hxy hyz

/-- Lexicographic weight comparison is antisymmetric. -/
theorem lexLeNat_antisymm : ∀ x y : List Nat,
    lexLeNat x y = true → lexLeNat y x = true → x = y := by
  intro x
  induction x with
  | nil =>
    intro y _ hyx
    match y with
    | [] => rfl
    | _ :: _ => simp [lexLeNat] at hyx
  | cons a as ih =>
    intro y hxy hyx
    match y with
    | [] => simp [lexLeNat] at hxy
    | b :: bs =>
      simp only [lexLeNat] at hxy hyx
      by_cases hab : a < b
      · have hba : ¬b < a := by omega
        simp [hba, Bool.ite_eq_true_distrib, if_neg (Nat.lt_asymm hab)] at hyx
        omega
      · by_cases hba : b < a
        · simp [hab, hba] at hxy
        · have : a = b := by omega
          subst this
          simp only [Nat.lt_irrefl, if_false] at hxy hyx
          rw [ih bs hxy hyx]

/-- Codepoint sequences determine the string. -/
theorem strCodes_inj {a b : String} (h : strCodes a = strCodes b) : a = b := by
  apply String.ext
  have hinj : Function.Injective Char.toNat := by
    intro c d hcd
    have := congrArg Char.ofNat hcd
    rwa [Char.ofNat_toNat, Char.ofNat_toNat] at this
  exact List.map_injective_iff.mpr hinj h

/-- The signing comparator is total. -/
instance : IsTotal String (fun a b : String => strLeb a b = true) :=
  ⟨fun a b => lexLeNat_total (strCodes a) (strCodes b)⟩

/-- The signing comparator is transitive. -/
instance : IsTrans String (fun a b : String => strLeb a b = true) :=
  ⟨fun _ _ _ h1 h2 => lexLeNat_trans _ _ _ h1 h2⟩

/-- The signing comparator is antisymmetric. -/
instance : IsAntisymm String (fun a b : String => strLeb a b = true) :=
  ⟨fun _ _ h1 h2 => strCodes_inj (lexLeNat_antisymm _ _ h1 h2)⟩

/-- The sorted key sequence depends only on the entries, not their order. -/
theorem sortedKeys_perm {p1 p2 : Params} (h : List.Perm p1 p2) :
    sortedKeys p1 = sortedKeys p2 := by
  have hs1 : List.Sorted (fun a b : String => strLeb a b = true) (sortedKeys p1) :=
    List.sorted_insertionSort _ _
  have hs2 : List.Sorted (fun a b : String => strLeb a b = true) (sortedKeys p2) :=
    List.sorted_insertionSort _ _
  exact List.eq_of_perm_of_sorted
    (((List.perm_insertionSort _ _).trans (h.map Prod.fst)).trans
      (List.perm_insertionSort _ _).symm) hs1 hs2

/-- The canonicalized string-to-sign is invariant under permutation of the
entries of a record with distinct keys. -/
theorem stringToSign_perm {p1 p2 : Params} (h : List.Perm p1 p2)
    (hnd : (keysOf p1).Nodup) : stringToSign p1 = stringToSign p2 := by
  unfold stringToSign
  rw [sortedKeys_perm h]
  exact congrArg String.join (List.map_congr_left
    (fun k _ => by unfold renderLookup; rw [jsLookup_perm h hnd k]))

/-- Ordered insertion only consults the comparator against members of the
list, so comparators agreeing there insert identically. -/
theorem orderedInsert_congr {α : Type} (r s : α → α → Prop)
    [DecidableRel r] [DecidableRel s] (a : α) :
    ∀ l : List α, (∀ b ∈ l, (r a b ↔ s a b)) →
      List.orderedInsert r a l = List.orderedInsert s a l := by
  intro l
  induction l with
  | nil => intro _; rfl
  | cons b t ih =>
    intro h
    simp only [List.orderedInsert]
    by_cases hr : r a b
    · rw [if_pos hr, if_pos ((h b (by simp)).mp hr)]
    · rw [if_neg hr, if_neg (fun hs2 => hr ((h b (by simp)).mpr hs2)),
        ih (fun c hc => h c (by simp [hc]))]

/-- Insertion sort only consults the comparator on pairs of list members, so
comparators agreeing there sort identically. -/
theorem insertionSort_congr {α : Type} (r s : α → α → Prop)
    [DecidableRel r] [DecidableRel s] :
    ∀ l : List α, (∀ a ∈ l, ∀ b ∈ l, (r a b ↔ s a b)) →
      List.insertionSort r l = List.insertionSort s l := by
  intro l
  induction l with
  | nil => intro _; rfl
  | cons a t ih =>
    intro h
    simp only [List.insertionSort]
    rw [ih (fun x hx y hy => h x (by simp [hx]) y (by simp [hy]))]
    apply orderedInsert_congr
    intro b hb
    have hbt : b ∈ t := (List.perm_insertionSort s t).subset hb
    exact h a (by simp) b (by simp [hbt])

/-- Projecting keys out of a key-compared ordered insertion of entries gives
the ordered insertion of the key. -/
theorem map_fst_orderedInsert (rb : String → String → Bool) (p : String × Value) :
    ∀ l : Params,
      (List.orderedInsert (fun x y : String × Value => rb x.1 y.1 = true) p l).map Prod.fst
        = List.orderedInsert (fun a b : String => rb a b = true) p.1 (l.map Prod.fst) := by
  intro l
  induction l with
  | nil => rfl
  | cons q t ih =>
    simp only [List.orderedInsert, List.map_cons]
    by_cases h : rb p.1 q.1 = true
    · rw [if_pos h, if_pos h]
      simp
    · rw [if_neg h, if_neg h]
      simp [ih]

/-- Projecting keys out of the key-compared entry sort gives the sort of the
keys. -/
theorem map_fst_insertionSort (rb : String → String → Bool) :
    ∀ l : Params,
      (List.insertionSort (fun x y : String × Value => rb x.1 y.1 = true) l).map Prod.fst
        = List.insertionSort (fun a b : String => rb a b = true) (l.map Prod.fst) := by
  intro l
  induction l with
  | nil => rfl
  | cons q t ih =>
    simp only [List.insertionSort, List.map_cons]
    rw [← ih, map_fst_orderedInsert]

/-- Sorting with an appended fresh name and erasing it again gives the sort
of the original names. -/
theorem sortLe_append_erase (l : List String) (h : "s" ∉ l) :
    (List.insertionSort (fun a b : String => strLeb a b = true) (l ++ ["s"])).erase "s"
      = List.insertionSort (fun a b : String => strLeb a b = true) l := by
  have hperm :
      ((List.insertionSort (fun a b : String => strLeb a b = true) (l ++ ["s"])).erase "s").Perm
        (List.insertionSort (fun a b : String => strLeb a b = true) l) := by
    have h1 :=
      (List.perm_insertionSort (fun a b : String => strLeb a b = true) (l ++ ["s"])).erase "s"
    rw [List.erase_append_right _ h] at h1
    simp only [List.erase_cons_head, List.append_nil] at h1
    exact h1.trans (List.perm_insertionSort _ l).symm
  have hs1 : List.Sorted (fun a b : String => strLeb a b = true)
      ((List.insertionSort (fun a b : String => strLeb a b = true) (l ++ ["s"])).erase "s") :=
    List.Pairwise.sublist (List.erase_sublist _ _) (List.sorted_insertionSort _ _)
  have hs2 : List.Sorted (fun a b : String => strLeb a b = true)
      (List.insertionSort (fun a b : String => strLeb a b = true) l) :=
    List.sorted_insertionSort _ _
  exact List.eq_of_perm_of_sorted hperm hs1 hs2

/-! ### Structure of the merged and signed parameter sets -/

/-- When `params` does not itself use the name `apiKey` (true of every
operation method), the merge prepends the API-key entry. -/
theorem paramsWithApiKey_eq (cfg : FlowConfig) (params : Params)
    (hnd : (keysOf params).Nodup) (hapi : "apiKey" ∉ keysOf params) :
    paramsWithApiKey cfg params = ("apiKey", Value.str cfg.apiKey) :: params := by
  unfold paramsWithApiKey
  rw [spreadInto_eq_append params _ ?_ hnd]
  · rfl
  · intro k hk
    simp only [keysOf, List.map_cons, List.map_nil, List.mem_singleton]
    intro hcontra
    exact hapi (hcontra ▸ hk)

/-- The reserved name `s` is absent from the merged set when absent from the
operation parameters. -/
theorem s_not_in_merged (cfg : FlowConfig) (params : Params)
    (hnd : (keysOf params).Nodup) (hapi : "apiKey" ∉ keysOf params)
    (hsig : "s" ∉ keysOf params) :
    "s" ∉ keysOf (paramsWithApiKey cfg params) := by
  rw [paramsWithApiKey_eq cfg params hnd hapi]
  simp only [keysOf, List.map_cons, List.mem_cons]
  intro hmem
  rcases hmem with h1 | h2
  · exact absurd h1 (by decide)
  · exact hsig h2

/-- The signature entry is appended under `s` after signing. -/
theorem signedParams_eq (cfg : FlowConfig) (params : Params)
    (hnd : (keysOf params).Nodup) (hapi : "apiKey" ∉ keysOf params)
    (hsig : "s" ∉ keysOf params) :
    signedParams cfg params
      = paramsWithApiKey cfg params
        ++ [("s", Value.str (sign cfg.secretKey (paramsWithApiKey cfg params)))] := by
  unfold signedParams
  exact recInsert_of_not_mem _ _ (s_not_in_merged cfg params hnd hapi hsig)

/-- The transmitted name sequence is the locale sort of the keys of the
signed set. -/
theorem wireNames_eq (cfg : FlowConfig) (params : Params) :
    wireNames cfg params
      = List.insertionSort (fun a b : String => localeLeb a b = true)
          (keysOf (signedParams cfg params)) := by
  unfold wireNames wireEntries
  rw [List.map_map]
  have hcomp : (Prod.fst ∘ fun p : String × Value => (p.1, p.2.render)) = Prod.fst := by
    funext p
    rfl
  rw [hcomp, map_fst_insertionSort localeLeb (signedParams cfg params)]
  rfl

/-- On parameter sets drawn from a pool where the two comparators agree, the
signing name sequence equals the wire name sequence with `s` removed. -/
theorem signWire_agree (cfg : FlowConfig) (params : Params) (P : List String)
    (hagree : agreeOn ("apiKey" :: "s" :: P))
    (hnd : (keysOf params).Nodup)
    (hsub : ∀ k ∈ keysOf params, k ∈ P)
    (hapi : "apiKey" ∉ P) (hs : "s" ∉ P) :
    signNameSeq cfg params = (wireNames cfg params).erase "s" := by
  have hapi2 : "apiKey" ∉ keysOf params := fun hmem => hapi (hsub _ hmem)
  have hsig2 : "s" ∉ keysOf params := fun hmem => hs (hsub _ hmem)
  have hkeysSigned : keysOf (signedParams cfg params)
      = keysOf (paramsWithApiKey cfg params) ++ ["s"] := by
    rw [signedParams_eq cfg params hnd hapi2 hsig2, keysOf_append]
    rfl
  have hmemPool : ∀ k ∈ keysOf (paramsWithApiKey cfg params) ++ ["s"],
      k ∈ "apiKey" :: "s" :: P := by
    intro k hk
    rcases List.mem_append.mp hk with hk1 | hk2
    · rw [paramsWithApiKey_eq cfg params hnd hapi2] at hk1
      simp only [keysOf, List.map_cons, List.mem_cons] at hk1
      rcases hk1 with h1 | h2
      · exact h1 ▸ List.mem_cons_self _ _
      · exact List.mem_cons_of_mem _ (List.mem_cons_of_mem _ (hsub _ h2))
    · simp only [List.mem_singleton] at hk2
      exact hk2 ▸ List.mem_cons_of_mem _ (List.mem_cons_self _ _)
  have hcongr :
      List.insertionSort (fun a b : String => localeLeb a b = true)
          (keysOf (paramsWithApiKey cfg params) ++ ["s"])
        = List.insertionSort (fun a b : String => strLeb a b = true)
          (keysOf (paramsWithApiKey cfg params) ++ ["s"]) :=
    insertionSort_congr _ _ _
      (fun a ha b hb => Iff.symm (hagree a (hmemPool a ha) b (hmemPool b hb)))
  rw [wireNames_eq, hkeysSigned, hcongr,
    sortLe_append_erase _ (s_not_in_merged cfg params hnd hapi2 hsig2)]
  rfl

/-! ### Length and character-set facts about the hex digest -/

/-- A compressed hash value always has eight words. -/
theorem compressBlock_length (hs block : List Nat) : (compressBlock hs block).length = 8 := rfl

/-- Folding compression over any block list preserves the eight-word shape. -/
theorem foldl_compressBlock_length :
    ∀ (blocks : List (List Nat)) (hs : List Nat), hs.length = 8 →
      (blocks.foldl compressBlock hs).length = 8 := by
  intro blocks
  induction blocks with
  | nil => intro hs h; exact h
  | cons b bs ih => intro hs _; exact ih (compressBlock hs b) (compressBlock_length hs b)

/-- The word-to-byte expansion of the digest has four bytes per word. -/
theorem flatMap_wordBytes_length : ∀ l : List Nat, (l.flatMap wordBytes).length = 4 * l.length := by
  intro l
  induction l with
  | nil => rfl
  | cons w ws ih =>
    simp only [List.flatMap_cons, List.length_append, ih]
    simp only [wordBytes, List.length_cons, List.length_nil]
    omega

/-- A SHA-256 digest has 32 bytes. -/
theorem sha256_length (m : List Nat) : (sha256 m).length = 32 := by
  unfold sha256
  rw [flatMap_wordBytes_length, foldl_compressBlock_length _ sha256H0 (by rfl)]

/-- Every character the hex table can yield is a lowercase hex digit. -/
theorem hexChar_mem (n : Nat) : hexChar n ∈ "0123456789abcdef".data := by
  unfold hexChar
  rcases Nat.lt_or_ge n 16 with h | h
  · interval_cases n <;> decide
  · rw [List.getD_eq_default _ _ (by simpa using h)]
    decide

/-- Hex rendering yields two characters per byte. -/
theorem bytesToHex_length (bs : List Nat) : (bytesToHex bs).length = 2 * bs.length := by
  unfold bytesToHex
  show (bs.flatMap fun b => [hexChar (b / 16), hexChar (b % 16)]).length = 2 * bs.length
  induction bs with
  | nil => rfl
  | cons b rest ih =>
    simp only [List.flatMap_cons, List.length_append, List.length_cons, List.length_nil, ih]
    omega

/-- Every character of a hex rendering is a lowercase hex digit. -/
theorem bytesToHex_mem (bs : List Nat) :
    ∀ c ∈ (bytesToHex bs).data, c ∈ "0123456789abcdef".data := by
  intro c hc
  unfold bytesToHex at hc
  rcases List.mem_flatMap.mp hc with ⟨b, _, hcb⟩
  rcases List.mem_cons.mp hcb with h1 | h2
  · exact h1 ▸ hexChar_mem _
  · rcases List.mem_singleton.mp (by simpa using h2) with h3
    exact h3 ▸ hexChar_mem _

/-- The rendered HMAC digest is a 64-character string. -/
theorem hmacSHA256Hex_length (key msg : String) : (hmacSHA256Hex key msg).length = 64 := by
  unfold hmacSHA256Hex hmacSha256
  rw [bytesToHex_length, sha256_length]

/-- Every character of the rendered HMAC digest is a lowercase hex digit. -/
theorem hmacSHA256Hex_mem (key msg : String) :
    ∀ c ∈ (hmacSHA256Hex key msg).data, c ∈ "0123456789abcdef".data :=
  fun c hc => bytesToHex_mem _ c hc

/-! ### Structure of `chargeParams` -/

/-- Keys reachable after a conditional optional-field insertion. -/
theorem keysOf_addIfTruthy {k' : String} (p : Params) (k : String) (o : Option String)
    (h : k' ∈ keysOf (addIfTruthy p k o)) : k' ∈ keysOf p ∨ k' = k := by
  match o with
  | none => exact Or.inl h
  | some v =>
    simp only [addIfTruthy] at h
    by_cases hv : v = ""
    · rw [if_pos hv] at h
      exact Or.inl h
    · rw [if_neg hv, keysOf_append] at h
      rcases List.mem_append.mp h with h1 | h2
      · exact Or.inl h1
      · simp only [keysOf, List.map_cons, List.map_nil, List.mem_singleton] at h2
        exact Or.inr h2

/-- Entries reachable after a conditional optional-field insertion. -/
theorem mem_addIfTruthy {k' : String} {v' : Value} (p : Params) (k : String) (o : Option String)
    (h : (k', v') ∈ addIfTruthy p k o) :
    (k', v') ∈ p ∨ (k' = k ∧ ∃ w, o = some w ∧ w ≠ "" ∧ v' = Value.str w) := by
  match o with
  | none => exact Or.inl h
  | some w =>
    simp only [addIfTruthy] at h
    by_cases hw : w = ""
    · rw [if_pos hw] at h
      exact Or.inl h
    · rw [if_neg hw] at h
      rcases List.mem_append.mp h with h1 | h2
      · exact Or.inl h1
      · rcases List.mem_singleton.mp h2 with h3
        refine Or.inr ⟨congrArg Prod.fst h3, w, rfl, hw, congrArg Prod.snd h3⟩

/-! ### The claims -/

/-- Claim C1: the string fed to the HMAC concatenates each name immediately
followed by its value in ascending lexicographic name order; in particular,
any insertion order of the parameter set with entries `b: "2"` and `a: "1"`
canonicalizes to exactly `a1b2`, which is what the HMAC is computed over. -/
theorem claim1 (secret : String) (params : Params)
    (h : List.Perm params [("b", Value.str "2"), ("a", Value.str "1")]) :
    stringToSign params = "a1b2" ∧ sign secret params = hmacSHA256Hex secret "a1b2" := by
  have hnd : (keysOf params).Nodup :=
    ((h.map Prod.fst).symm.nodup (by decide))
  have h1 : stringToSign params = "a1b2" := by
    rw [stringToSign_perm h hnd]
    rfl
  exact ⟨h1, by unfold sign; rw [h1]⟩

/-- Witness for C1 at the reversed insertion order. -/
theorem claim1_witness :
    stringToSign [("a", Value.str "1"), ("b", Value.str "2")] = "a1b2"
    ∧ sign "K" [("a", Value.str "1"), ("b", Value.str "2")] = hmacSHA256Hex "K" "a1b2" :=
  claim1 "K" [("a", Value.str "1"), ("b", Value.str "2")] (by decide)

/-- Claim C2: the signer is deterministic (a pure function of the parameter
set and secret key, so recomputation yields the identical string), and
permuting the insertion order of a parameter set with distinct names never
changes the signature. -/
theorem claim2 (secret : String) (p1 p2 : Params)
    (hnd : (keysOf p1).Nodup) (hperm : List.Perm p1 p2) :
    sign secret p1 = sign secret p1 ∧ sign secret p1 = sign secret p2 :=
  ⟨rfl, by unfold sign; rw [stringToSign_perm hperm hnd]⟩

/-- Witness for C2 at a two-entry set and its transposition. -/
theorem claim2_witness :
    sign "K" [("b", Value.str "2"), ("a", Value.str "1")]
        = sign "K" [("b", Value.str "2"), ("a", Value.str "1")]
    ∧ sign "K" [("b", Value.str "2"), ("a", Value.str "1")]
        = sign "K" [("a", Value.str "1"), ("b", Value.str "2")] :=
  claim2 "K" [("b", Value.str "2"), ("a", Value.str "1")]
    [("a", Value.str "1"), ("b", Value.str "2")] (by decide) (by decide)

/-- Counterexample to C3 as stated: the two sorts do not use the same
comparator for every parameter set. The signing sort compares character
codes (`"Z" < "a"`), while the wire sort's locale comparison places `"a"`
before `"Z"`; on the parameter set with names `Z` and `a` the signing name
sequence differs from the transmitted name sequence with `s` removed. -/
theorem claim3_counterexample :
    signNameSeq ⟨"K", "secret", "https://api"⟩ [("Z", Value.str "1"), ("a", Value.str "2")]
      ≠ (wireNames ⟨"K", "secret", "https://api"⟩
          [("Z", Value.str "1"), ("a", Value.str "2")]).erase "s" := by
  intro hcontra
  have h1 : signNameSeq ⟨"K", "secret", "https://api"⟩
      [("Z", Value.str "1"), ("a", Value.str "2")] = ["Z", "a", "apiKey"] := rfl
  have h2 : (wireNames ⟨"K", "secret", "https://api"⟩
      [("Z", Value.str "1"), ("a", Value.str "2")]).erase "s" = ["a", "apiKey", "Z"] := rfl
  rw [h1, h2] at hcontra
  exact absurd (List.head_eq_of_cons_eq hcontra) (by decide)

/-- Claim C3 as amended: the signing sort and the wire sort use different
comparators (character-code order versus locale collation), but the two
comparators agree on every pair of names any single operation of this client
can transmit; hence, for every parameter set an operation method can build,
the name sequence of the string-to-sign equals the transmitted name sequence
with the appended `s` entry removed. -/
theorem claim3 (cfg : FlowConfig) (params : Params)
    (hnd : (keysOf params).Nodup)
    (hpool : (∀ k ∈ keysOf params, k ∈ createOpNames)
      ∨ (∀ k ∈ keysOf params, k ∈ registerOpNames)
      ∨ (∀ k ∈ keysOf params, k ∈ statusOpNames)
      ∨ (∀ k ∈ keysOf params, k ∈ chargeOpNames)) :
    signNameSeq cfg params = (wireNames cfg params).erase "s" := by
  rcases hpool with h | h | h | h
  · exact signWire_agree cfg params createOpNames (by decide) hnd h (by decide) (by decide)
  · exact signWire_agree cfg params registerOpNames (by decide) hnd h (by decide) (by decide)
  · exact signWire_agree cfg params statusOpNames (by decide) hnd h (by decide) (by decide)
  · exact signWire_agree cfg params chargeOpNames (by decide) hnd h (by decide) (by decide)

/-- Witness for the amended C3 at a charge parameter set. -/
theorem claim3_witness :
    signNameSeq ⟨"K", "secret", "https://api"⟩
        [("customerId", Value.str "c1"), ("amount", Value.num 100),
         ("currency", Value.str "CLP"), ("subject", Value.str "sub")]
      = (wireNames ⟨"K", "secret", "https://api"⟩
          [("customerId", Value.str "c1"), ("amount", Value.num 100),
           ("currency", Value.str "CLP"), ("subject", Value.str "sub")]).erase "s" :=
  claim3 ⟨"K", "secret", "https://api"⟩ _ (by decide)
    (Or.inr (Or.inr (Or.inr (by decide))))

/-- Claim C4: dispatch merges the API key under the fixed name `apiKey`
before signing, computes the signature over exactly that merged set, appends
it under the reserved name `s` (which is not part of the signature's own
input), and transmits exactly the signed names plus `s`. The hypotheses
record that the operation parameter set has distinct names and does not
itself use `apiKey` or `s`, which is true of every operation method. -/
theorem claim4 (cfg : FlowConfig) (params : Params)
    (hnd : (keysOf params).Nodup)
    (hapi : "apiKey" ∉ keysOf params)
    (hsig : "s" ∉ keysOf params) :
    paramsWithApiKey cfg params = ("apiKey", Value.str cfg.apiKey) :: params
    ∧ signedParams cfg params
        = paramsWithApiKey cfg params
          ++ [("s", Value.str (sign cfg.secretKey (paramsWithApiKey cfg params)))]
    ∧ "s" ∉ keysOf (paramsWithApiKey cfg params)
    ∧ (∀ k, k ∈ wireNames cfg params
        ↔ k ∈ keysOf (paramsWithApiKey cfg params) ∨ k = "s") := by
  refine ⟨paramsWithApiKey_eq cfg params hnd hapi,
    signedParams_eq cfg params hnd hapi hsig,
    s_not_in_merged cfg params hnd hapi hsig, ?_⟩
  intro k
  rw [wireNames_eq]
  have hmem := (List.perm_insertionSort
    (fun a b : String => localeLeb a b = true) (keysOf (signedParams cfg params))).mem_iff
    (a := k)
  rw [hmem]
  rw [signedParams_eq cfg params hnd hapi hsig, keysOf_append]
  constructor
  · intro hk
    rcases List.mem_append.mp hk with h1 | h2
    · exact Or.inl h1
    · exact Or.inr (List.mem_singleton.mp h2)
  · intro hk
    rcases hk with h1 | h2
    · exact List.mem_append.mpr (Or.inl h1)
    · exact List.mem_append.mpr (Or.inr (h2 ▸ List.mem_singleton.mpr rfl))

/-- Witness for C4 at the create-customer parameter set. -/
theorem claim4_witness :
    paramsWithApiKey ⟨"K", "secret", "https://api"⟩ [("name", Value.str "A")]
        = ("apiKey", Value.str "K") :: [("name", Value.str "A")]
    ∧ signedParams ⟨"K", "secret", "https://api"⟩ [("name", Value.str "A")]
        = paramsWithApiKey ⟨"K", "secret", "https://api"⟩ [("name", Value.str "A")]
          ++ [("s", Value.str (sign "secret"
              (paramsWithApiKey ⟨"K", "secret", "https://api"⟩ [("name", Value.str "A")])))]
    ∧ "s" ∉ keysOf (paramsWithApiKey ⟨"K", "secret", "https://api"⟩ [("name", Value.str "A")])
    ∧ (∀ k, k ∈ wireNames ⟨"K", "secret", "https://api"⟩ [("name", Value.str "A")]
        ↔ k ∈ keysOf (paramsWithApiKey ⟨"K", "secret", "https://api"⟩ [("name", Value.str "A")])
          ∨ k = "s") :=
  claim4 ⟨"K", "secret", "https://api"⟩ [("name", Value.str "A")]
    (by decide) (by decide) (by decide)

/-- The end-to-end customer-creation request of the spec's scenario. -/
def janeReq : CustomerCreateRequest := ⟨"Jane Doe", "jane@example.com", "u123"⟩

/-- Counterexample to C5 as stated: for the scenario request the actual
string-to-sign keeps the value verbatim (`nameJane Doe`, no space after
`email`), so it differs from the claimed literal, whose name was lowercased
and which carries a stray space. -/
theorem claim5_counterexample :
    stringToSign (paramsWithApiKey ⟨"K", "secret", "https://api"⟩ (createParams janeReq))
        = "apiKeyKemailjane@example.comexternalIdu123nameJane Doe"
    ∧ stringToSign (paramsWithApiKey ⟨"K", "secret", "https://api"⟩ (createParams janeReq))
        ≠ "apiKeyKemail jane@example.comexternalIdu123namejane doe" :=
  ⟨by rfl, by decide⟩

/-- Claim C5 as amended: for the scenario request the string-to-sign is
exactly `apiKey` + the API key + `emailjane@example.comexternalIdu123nameJane
Doe` (values verbatim, per the canonicalization rules), and the transmitted
`s` parameter is the HMAC-SHA256 of that string under the secret key,
rendered as 64 lowercase hexadecimal characters. -/
theorem claim5 (cfg : FlowConfig) :
    stringToSign (paramsWithApiKey cfg (createParams janeReq))
      = "apiKey" ++ cfg.apiKey ++ "emailjane@example.comexternalIdu123nameJane Doe"
    ∧ jsLookup (signedParams cfg (createParams janeReq)) "s"
        = some (Value.str (hmacSHA256Hex cfg.secretKey
            (stringToSign (paramsWithApiKey cfg (createParams janeReq)))))
    ∧ (hmacSHA256Hex cfg.secretKey
        (stringToSign (paramsWithApiKey cfg (createParams janeReq)))).length = 64
    ∧ ∀ c ∈ (hmacSHA256Hex cfg.secretKey
        (stringToSign (paramsWithApiKey cfg (createParams janeReq)))).data,
        c ∈ "0123456789abcdef".data := by
  refine ⟨?_, rfl, hmacSHA256Hex_length _ _, hmacSHA256Hex_mem _ _⟩
  have h1 : stringToSign (paramsWithApiKey cfg (createParams janeReq))
      = "apiKey" ++ cfg.apiKey ++ "emailjane@example.com"
        ++ "externalIdu123" ++ "nameJane Doe" := rfl
  rw [h1]
  apply String.ext
  simp only [String.data_append, List.append_assoc]
  rfl

/-- Claim C6: charging with every optional field absent transmits exactly the
four required names plus `apiKey` and `s`, with no placeholder entries for
the omitted optional names. -/
theorem claim6 (cfg : FlowConfig) (req : CustomerChargeRequest)
    (h1 : req.commerceOrder = none) (h2 : req.email = none)
    (h3 : req.urlConfirmation = none) (h4 : req.urlReturn = none) :
    wireNames cfg (chargeParams req)
      = ["amount", "apiKey", "currency", "customerId", "s", "subject"] := by
  have hcp : chargeParams req
      = [("customerId", Value.str req.customerId), ("amount", Value.num req.amount),
         ("currency", Value.str req.currency), ("subject", Value.str req.subject)] := by
    unfold chargeParams
    rw [h1, h2, h3, h4]
    rfl
  rw [hcp]
  rfl

/-- Witness for C6 at a concrete charge request with no optional fields. -/
theorem claim6_witness :
    wireNames ⟨"K", "secret", "https://api"⟩
        (chargeParams ⟨"c1", 100, "CLP", "sub", none, none, none, none⟩)
      = ["amount", "apiKey", "currency", "customerId", "s", "subject"] :=
  claim6 ⟨"K", "secret", "https://api"⟩ ⟨"c1", 100, "CLP", "sub", none, none, none, none⟩
    rfl rfl rfl rfl

/-- Claim C7: on a 2xx response, a truthy nonzero `code` in the body yields a
failure carrying that code and the body's (nonempty) message despite the
successful HTTP status, while a `code` of 0 or an absent `code` yields a
success equal to the response body. -/
theorem claim7 (status : Nat) (b : JsonBody) (hok : responseOk status) :
    (∀ c m, b.code = some c → c ≠ 0 → b.message = some m → m ≠ "" →
        makeRequest (.response status (some b)) = .error ⟨m, c⟩)
    ∧ ((b.code = none ∨ b.code = some 0) →
        makeRequest (.response status (some b)) = .ok b) := by
  constructor
  · intro c m hc hc0 hm hm0
    simp only [makeRequest, innerRequest, if_pos hok, hc, if_pos hc0, jsOrStr, hm,
      if_neg hm0, normalizeError]
  · intro hcode
    rcases hcode with h | h
    · simp only [makeRequest, innerRequest, if_pos hok, h]
    · simp only [makeRequest, innerRequest, if_pos hok, h]
      norm_num

/-- Witness for C7: code 7 / message `declined` on a 200 fails with exactly
that pair; a body without `code` succeeds as-is. -/
theorem claim7_witness :
    makeRequest (.response 200 (some ⟨some 7, some "declined", []⟩))
        = .error ⟨"declined", 7⟩
    ∧ makeRequest (.response 200 (some ⟨none, none, [("customerId", "c1")]⟩))
        = .ok ⟨none, none, [("customerId", "c1")]⟩ :=
  ⟨(claim7 200 ⟨some 7, some "declined", []⟩ (by decide)).1 7 "declined" rfl
      (by decide) rfl (by decide),
   (claim7 200 ⟨none, none, [("customerId", "c1")]⟩ (by decide)).2 (Or.inl rfl)⟩

/-- Claim C8: on a non-2xx response, a parseable JSON error body with nonzero
`code` and nonempty `message` yields a failure carrying that pair, and an
unparseable body yields a failure whose code is the HTTP status with the
generic message. -/
theorem claim8 (status : Nat) (hnot : ¬responseOk status) :
    (∀ (b : JsonBody) (c : Int) (m : String),
        b.code = some c → c ≠ 0 → b.message = some m → m ≠ "" →
        makeRequest (.response status (some b)) = .error ⟨m, c⟩)
    ∧ makeRequest (.response status none) = .error ⟨"Unknown error", (status : Int)⟩ := by
  constructor
  · intro b c m hc hc0 hm hm0
    simp only [makeRequest, innerRequest, if_neg hnot, hc, hm, jsOrStr, jsOrInt,
      if_neg hm0, if_neg hc0, normalizeError]
  · simp only [makeRequest, innerRequest, if_neg hnot, normalizeError]

/-- Witness for C8: a 400 with body code 42 / message `bad request`, and a
503 with an unparseable body. -/
theorem claim8_witness :
    makeRequest (.response 400 (some ⟨some 42, some "bad request", []⟩))
        = .error ⟨"bad request", 42⟩
    ∧ makeRequest (.response 503 none) = .error ⟨"Unknown error", (503 : Int)⟩ :=
  ⟨(claim8 400 (by decide)).1 ⟨some 42, some "bad request", []⟩ 42 "bad request" rfl
      (by decide) rfl (by decide),
   (claim8 503 (by decide)).2⟩

/-- Claim C9: a non-`FlowApiError` thrown by the transport is re-signaled as
a failure with code 500 and the underlying message (or the generic message
for a non-`Error` value), and any error already in the normalized
`FlowApiError` shape propagates unchanged, never wrapped a second time. -/
theorem claim9 :
    (∀ m, makeRequest (.throws (.plain m)) = .error ⟨m, 500⟩)
    ∧ makeRequest (.throws .nonErrorValue) = .error ⟨"Unknown error occurred", 500⟩
    ∧ (∀ (outcome : FetchOutcome) (e : FlowApiError),
        innerRequest outcome = .error (.flowApi e) → makeRequest outcome = .error e) := by
  refine ⟨fun m => rfl, rfl, ?_⟩
  intro outcome e h
  unfold makeRequest
  rw [h]
  rfl

/-- Witness for C9: a network failure is wrapped with code 500, and a
`FlowApiError` raised inside the request passes through unchanged. -/
theorem claim9_witness :
    makeRequest (.throws (.plain "connection refused")) = .error ⟨"connection refused", 500⟩
    ∧ makeRequest (.response 200 (some ⟨some 3, some "x", []⟩)) = .error ⟨"x", 3⟩ :=
  ⟨claim9.1 "connection refused",
   claim9.2.2 (.response 200 (some ⟨some 3, some "x", []⟩)) ⟨"x", 3⟩ rfl⟩

/-- Claim C10: an optional charge field supplied as the empty string behaves
exactly like an absent one — the parameter set is the one built with the
field absent, the name does not appear among the keys, and no optional name
can ever carry an empty-string value. -/
theorem claim10 (req : CustomerChargeRequest) :
    (req.commerceOrder = some "" →
        chargeParams req = chargeParams (setCommerceOrder req none)
        ∧ "commerceOrder" ∉ keysOf (chargeParams req))
    ∧ (req.email = some "" →
        chargeParams req = chargeParams (setEmail req none)
        ∧ "email" ∉ keysOf (chargeParams req))
    ∧ (req.urlConfirmation = some "" →
        chargeParams req = chargeParams (setUrlConfirmation req none)
        ∧ "urlConfirmation" ∉ keysOf (chargeParams req))
    ∧ (req.urlReturn = some "" →
        chargeParams req = chargeParams (setUrlReturn req none)
        ∧ "urlReturn" ∉ keysOf (chargeParams req))
    ∧ (∀ k v, k ∈ ["commerceOrder", "email", "urlConfirmation", "urlReturn"] →
        (k, v) ∈ chargeParams req → v ≠ Value.str "") := by
  refine ⟨?_, ?_, ?_, ?_, ?_⟩
  · intro hco
    have hred : chargeParams req
        = addIfTruthy (addIfTruthy (addIfTruthy
            [("customerId", Value.str req.customerId), ("amount", Value.num req.amount),
             ("currency", Value.str req.currency), ("subject", Value.str req.subject)]
            "email" req.email) "urlConfirmation" req.urlConfirmation)
            "urlReturn" req.urlReturn := by
      unfold chargeParams
      rw [hco]
      rfl
    refine ⟨by rw [hred]; rfl, ?_⟩
    rw [hred]
    intro hk
    rcases keysOf_addIfTruthy _ _ _ hk with hk | h4
    · rcases keysOf_addIfTruthy _ _ _ hk with hk | h3
      · rcases keysOf_addIfTruthy _ _ _ hk with hk | h2
        · simp [keysOf] at hk
        · exact absurd h2 (by decide)
      · exact absurd h3 (by decide)
    · exact absurd h4 (by decide)
  · intro hem
    have hred : chargeParams req
        = addIfTruthy (addIfTruthy (addIfTruthy
            [("customerId", Value.str req.customerId), ("amount", Value.num req.amount),
             ("currency", Value.str req.currency), ("subject", Value.str req.subject)]
            "commerceOrder" req.commerceOrder) "urlConfirmation" req.urlConfirmation)
            "urlReturn" req.urlReturn := by
      unfold chargeParams
      rw [hem]
      rfl
    refine ⟨by rw [hred]; rfl, ?_⟩
    rw [hred]
    intro hk
    rcases keysOf_addIfTruthy _ _ _ hk with hk | h4
    · rcases keysOf_addIfTruthy _ _ _ hk with hk | h3
      · rcases keysOf_addIfTruthy _ _ _ hk with hk | h2
        · simp [keysOf] at hk
        · exact absurd h2 (by decide)
      · exact absurd h3 (by decide)
    · exact absurd h4 (by decide)
  · intro huc
    have hred : chargeParams req
        = addIfTruthy (addIfTruthy (addIfTruthy
            [("customerId", Value.str req.customerId), ("amount", Value.num req.amount),
             ("currency", Value.str req.currency), ("subject", Value.str req.subject)]
            "commerceOrder" req.commerceOrder) "email" req.email)
            "urlReturn" req.urlReturn := by
      unfold chargeParams
      rw [huc]
      rfl
    refine ⟨by rw [hred]; rfl, ?_⟩
    rw [hred]
    intro hk
    rcases keysOf_addIfTruthy _ _ _ hk with hk | h4
    · rcases keysOf_addIfTruthy _ _ _ hk with hk | h3
      · rcases keysOf_addIfTruthy _ _ _ hk with hk | h2
        · simp [keysOf] at hk
        · exact absurd h2 (by decide)
      · exact absurd h3 (by decide)
    · exact absurd h4 (by decide)
  · intro hur
    have hred : chargeParams req
        = addIfTruthy (addIfTruthy (addIfTruthy
            [("customerId", Value.str req.customerId), ("amount", Value.num req.amount),
             ("currency", Value.str req.currency), ("subject", Value.str req.subject)]
            "commerceOrder" req.commerceOrder) "email" req.email)
            "urlConfirmation" req.urlConfirmation := by
      unfold chargeParams
      rw [hur]
      rfl
    refine ⟨by rw [hred]; rfl, ?_⟩
    rw [hred]
    intro hk
    rcases keysOf_addIfTruthy _ _ _ hk with hk | h4
    · rcases keysOf_addIfTruthy _ _ _ hk with hk | h3
      · rcases keysOf_addIfTruthy _ _ _ hk with hk | h2
        · simp [keysOf] at hk
        · exact absurd h2 (by decide)
      · exact absurd h3 (by decide)
    · exact absurd h4 (by decide)
  · intro k v hk hmem
    unfold chargeParams at hmem
    rcases mem_addIfTruthy _ _ _ hmem with hmem | ⟨_, w, _, hw, hv⟩
    · rcases mem_addIfTruthy _ _ _ hmem with hmem | ⟨_, w, _, hw, hv⟩
      · rcases mem_addIfTruthy _ _ _ hmem with hmem | ⟨_, w, _, hw, hv⟩
        · rcases mem_addIfTruthy _ _ _ hmem with hmem | ⟨_, w, _, hw, hv⟩
          · fin_cases hk <;> simp_all
          · intro hcontra
            rw [hcontra] at hv
            exact hw (Value.str.inj hv).symm
        · intro hcontra
          rw [hcontra] at hv
          exact hw (Value.str.inj hv).symm
      · intro hcontra
        rw [hcontra] at hv
        exact hw (Value.str.inj hv).symm
    · intro hcontra
      rw [hcontra] at hv
      exact hw (Value.str.inj hv).symm

/-- Witness for C10 at a charge request whose optional fields are all the
empty string. -/
theorem claim10_witness :
    chargeParams ⟨"c1", 100, "CLP", "sub", some "", some "", some "", some ""⟩
        = chargeParams (setCommerceOrder
            ⟨"c1", 100, "CLP", "sub", some "", some "", some "", some ""⟩ none)
    ∧ "commerceOrder" ∉ keysOf
        (chargeParams ⟨"c1", 100, "CLP", "sub", some "", some "", some "", some ""⟩) :=
  (claim10 ⟨"c1", 100, "CLP", "sub", some "", some "", some "", some ""⟩).1 rfl

end FlowSpec
